import Mathlib

set_option autoImplicit false

/-!
Verification of the benchmark-merging program (merge_benchmarks.py).

The program loads three JSON files, each a list of benchmark records,
merges them with first-seen-wins deduplication on the id field, tallies
records by category, and reports skipped duplicates.  The definitions
below are a shallow embedding of that program: records become a Lean
structure, the mutable seen set becomes an explicitly threaded list used
only through membership, the loops become structural recursion, and the
KeyError raised by a record without an id field becomes the none case of
Option.
-/

/-- A benchmark record: a JSON object.  The merge only inspects the id
field (required by the code, hence Option to model its possible absence)
and the category field (optional in the code).  All remaining content of
the object is abstracted as an opaque payload so that distinct records
with equal ids can be told apart. -/
structure Record where
  id : Option String
  category : Option String
  payload : Nat
  deriving DecidableEq

/-- The id of a record that is known to have one.  Used only in
specification-side statements under hypotheses that guarantee the id
field is present; the default is irrelevant junk otherwise. -/
def theId (b : Record) : String := (b.id).getD ("")

/-- The diagnostic line printed when a duplicate id is skipped,
mirroring the print call in the two merge loops. -/
def skipLine (i : String) : String := "  - Skipped duplicate ID: " ++ i

/-- The state threaded through the two merge loops: the accumulated
output list all_benchmarks, the seen set existing_ids (modelled as a
list used only through membership), and the skip-diagnostic lines
printed so far. -/
structure MState where
  acc : List Record
  seen : List String
  logs : List String
  deriving DecidableEq

/-- One iteration of a merge loop: look up the id of the record (a
missing id raises, modelled as none); append the record and its id when
the id is not yet seen, otherwise print a skip diagnostic. -/
def addOne (st : MState) (benchmark : Record) : Option MState :=
  match benchmark.id with
  | none => none
  | some i =>
      if i ∉ st.seen then
        some { acc := st.acc ++ [benchmark], seen := st.seen ++ [i], logs := st.logs }
      else
        some { acc := st.acc, seen := st.seen, logs := st.logs ++ [skipLine i] }

/-- A whole merge loop over one supplemental collection, in original
order. -/
def addAll (st : MState) : List Record → Option MState
  | [] => some st
  | benchmark :: rest => do
      let st1 ← addOne st benchmark
      addAll st1 rest

/-- The set comprehension building existing_ids from the id field of
every record of the current collection; a record without an id raises,
modelled as none.  The result is used only through membership, so a list
faithfully models the Python set. -/
def idsOf : List Record → Option (List String)
  | [] => some []
  | b :: rest => do
      let i ← b.id
      let others ← idsOf rest
      some (i :: others)

/-- The result of the merge step: the merged list and the
skipped-duplicate diagnostic lines, in the order printed. -/
structure MergeOutput where
  merged : List Record
  logs : List String
  deriving DecidableEq

/-- The merge of merge_benchmarks.py lines 28 to 48: start from a copy
of current, build the seen set from its ids, then fold the two
supplemental collections through the duplicate-skipping loop in
precedence order. -/
def merge_benchmarks (current new_bench new_bench1 : List Record) : Option MergeOutput := do
  let existing_ids ← idsOf current
  let st1 ← addAll { acc := current, seen := existing_ids, logs := [] } new_bench
  let st2 ← addAll st1 new_bench1
  some { merged := st2.acc, logs := st2.logs }

/-- The category of a record for the tally: the category field when
present, else the literal string unknown (line 55 of the source). -/
def catOf (b : Record) : String := (b.category).getD ("unknown")

/-- One update of the category dictionary: increment the count stored
under the key when present, else insert the key at the end with count 1.
This models Python dict update including insertion order. -/
def bumpCat (m : List (String × Nat)) (c : String) : List (String × Nat) :=
  match m with
  | [] => [(c, 1)]
  | (k, v) :: rest => if k = c then (k, v + 1) :: rest else (k, v) :: bumpCat rest c

/-- The category tally loop of lines 53 to 56: fold every merged record
into the category dictionary. -/
def categoriesOf (l : List Record) : List (String × Nat) :=
  l.foldl (fun m b => bumpCat m (catOf b)) []

/-- Look up a count in the category dictionary, 0 when the key is
absent. -/
def lookupCount (m : List (String × Nat)) (c : String) : Nat :=
  match m with
  | [] => 0
  | (k, v) :: rest => if k = c then v else lookupCount rest c

/-- The sum of all counts of the category dictionary. -/
def sumCounts : List (String × Nat) → Nat
  | [] => 0
  | (_, v) :: rest => v + sumCounts rest

/-- The loader of lines 5 to 12.  The filesystem and JSON parser are
abstracted as a function from filename to parse outcome; the single
catch-all handler of the source maps every failure to a logged
diagnostic naming the file and the error, and an empty list.  The first
component is the value returned, the second the diagnostic lines
printed. -/
def load_json_file (fs : String → Except String (List Record)) (filename : String) :
    List Record × List String :=
  match fs filename with
  | Except.ok doc => (doc, [])
  | Except.error e => ([], ["Error loading " ++ filename ++ ": " ++ e])

/-- The observable outcome of a run that the implicit determinism claim
speaks about: the merged list, the category tally, and the
skipped-duplicate diagnostics. -/
structure RunOutput where
  merged : List Record
  categories : List (String × Nat)
  logs : List String
  deriving DecidableEq

/-- The whole pipeline of merge_benchmarks (lines 14 to 70) against an
abstract filesystem: load the three fixed paths fail-soft, merge, and
tally. -/
def run_merge (fs : String → Except String (List Record)) : Option RunOutput :=
  let current := (load_json_file fs ("data/benchmarks.json")).1
  let new_bench := (load_json_file fs ("data/new_bench.json")).1
  let new_bench1 := (load_json_file fs ("data/new_bench1.json")).1
  (merge_benchmarks current new_bench new_bench1).map
    (fun out => { merged := out.merged, categories := categoriesOf out.merged, logs := out.logs })

/-- Specification-side description of one pass over a supplemental
collection, following the spec wording: the records whose id is not
already in the seen set at their turn are selected in original order,
the ids of the others are skipped, and the seen set grows by each
selected id.  Used to state the refinement theorems about the merge. -/
structure Pick where
  sel : List Record
  skipped : List String
  seen : List String
  deriving DecidableEq

/-- Modelled from the spec: iterate over one supplemental collection in
original order, keeping each record whose id is not in the seen set at
its turn and recording the id of each skipped record. -/
def pickNew (seen : List String) : List Record → Pick
  | [] => { sel := [], skipped := [], seen := seen }
  | b :: rest =>
      if theId b ∈ seen then
        let p := pickNew seen rest
        { sel := p.sel, skipped := theId b :: p.skipped, seen := p.seen }
      else
        let p := pickNew (seen ++ [theId b]) rest
        { sel := b :: p.sel, skipped := p.skipped, seen := p.seen }

/-- The unique survivor described by the deduplication claim: the first
record carrying the given id in the highest-precedence collection that
contains that id. -/
def firstWithId (i : String) (c a b : List Record) : List Record :=
  if i ∈ c.map theId then (c.filter (fun r => theId r = i)).take 1
  else if i ∈ a.map theId then (a.filter (fun r => theId r = i)).take 1
  else (b.filter (fun r => theId r = i)).take 1

/-- A concrete record with a given id and payload, used in witnesses and
counterexamples. -/
def rid (i : String) (p : Nat) : Record := { id := some i, category := none, payload := p }

/-- A concrete record with a given id and category. -/
def rcat (i c : String) : Record := { id := some i, category := some c, payload := 0 }

/-- A concrete record lacking the id field. -/
def noIdRec : Record := { id := none, category := some ("x"), payload := 0 }

example : merge_benchmarks [rid ("1") 0] [rid ("1") 1, rid ("2") 2] [rid ("2") 3, rid ("3") 4] =
    some { merged := [rid ("1") 0, rid ("2") 2, rid ("3") 4],
           logs := [skipLine ("1"), skipLine ("2")] } := by decide

example : merge_benchmarks [] [noIdRec] [] = none := by decide

example : categoriesOf [rcat ("1") ("x"), rid ("2") 0, rcat ("3") ("x")] =
    [(("x"), 2), (("unknown"), 1)] := by decide

/-! Basic facts about the specification-side pass pickNew. -/

theorem pickNew_seen_eq (l : List Record) :
    ∀ seen : List String, (pickNew seen l).seen = seen ++ ((pickNew seen l).sel).map theId := by
  induction l with
  | nil => intro seen; simp [pickNew]
  | cons b rest ih =>
      intro seen
      by_cases h : theId b ∈ seen
      · simpa [pickNew, h] using ih seen
      · simp [pickNew, h, ih (seen ++ [theId b])]

theorem pickNew_fresh (l : List Record) :
    ∀ (seen : List String) (i : String), i ∈ seen → i ∉ ((pickNew seen l).sel).map theId := by
  induction l with
  | nil => intro seen i _; simp [pickNew]
  | cons b rest ih =>
      intro seen i hi
      by_cases h : theId b ∈ seen
      · simpa [pickNew, h] using ih seen i hi
      · have hne : i ≠ theId b := by
          intro hEq; exact h (hEq ▸ hi)
        have : i ∉ ((pickNew (seen ++ [theId b]) rest).sel).map theId :=
          ih (seen ++ [theId b]) i (by simp [hi])
        simp [pickNew, h, hne, this]

theorem pickNew_sel_nodup (l : List Record) :
    ∀ seen : List String, (((pickNew seen l).sel).map theId).Nodup := by
  induction l with
  | nil => intro seen; simp [pickNew]
  | cons b rest ih =>
      intro seen
      by_cases h : theId b ∈ seen
      · simpa [pickNew, h] using ih seen
      · have hfresh : theId b ∉ ((pickNew (seen ++ [theId b]) rest).sel).map theId :=
          pickNew_fresh rest (seen ++ [theId b]) (theId b) (by simp)
        simpa [pickNew, h, hfresh] using ih (seen ++ [theId b])

theorem pickNew_length (l : List Record) :
    ∀ seen : List String,
      (pickNew seen l).sel.length + (pickNew seen l).skipped.length = l.length := by
  induction l with
  | nil => intro seen; simp [pickNew]
  | cons b rest ih =>
      intro seen
      by_cases h : theId b ∈ seen
      · have := ih seen; simp [pickNew, h]; omega
      · have := ih (seen ++ [theId b]); simp [pickNew, h]; omega

theorem pickNew_sel_subset (l : List Record) :
    ∀ (seen : List String) (r : Record), r ∈ (pickNew seen l).sel → r ∈ l := by
  induction l with
  | nil => intro seen r hr; simp [pickNew] at hr
  | cons b rest ih =>
      intro seen r hr
      by_cases h : theId b ∈ seen
      · simp [pickNew, h] at hr
        exact List.mem_cons_of_mem b (ih seen r hr)
      · simp [pickNew, h] at hr
        rcases hr with hr | hr
        · simp [hr]
        · exact List.mem_cons_of_mem b (ih (seen ++ [theId b]) r hr)

theorem pickNew_filter_of_mem (l : List Record) (seen : List String) (i : String)
    (hi : i ∈ seen) : ((pickNew seen l).sel).filter (fun r => theId r = i) = [] := by
  rw [List.filter_eq_nil_iff]
  intro r hr
  simp only [decide_eq_true_eq]
  intro hEq
  exact pickNew_fresh l seen i hi (hEq ▸ List.mem_map_of_mem theId hr)

theorem pickNew_filter_first (l : List Record) :
    ∀ (seen : List String) (i : String), i ∉ seen →
      ((pickNew seen l).sel).filter (fun r => theId r = i) =
        (l.filter (fun r => theId r = i)).take 1 := by
  induction l with
  | nil => intro seen i _; simp [pickNew]
  | cons b rest ih =>
      intro seen i hi
      by_cases h : theId b ∈ seen
      · have hne : theId b ≠ i := by
          intro hEq; exact hi (hEq ▸ h)
        simp [pickNew, h, List.filter_cons, hne, ih seen i hi]
      · by_cases hbi : theId b = i
        · subst hbi
          simp [pickNew, h, List.filter_cons,
            pickNew_filter_of_mem rest (seen ++ [theId b]) (theId b) (by simp)]
        · have hi2 : i ∉ seen ++ [theId b] := by
            simp [hi]
            intro hEq; exact hbi hEq.symm
          simp [pickNew, h, List.filter_cons, hbi, ih (seen ++ [theId b]) i hi2]

/-! Relating the merge loops of the program to the specification-side
pass. -/

theorem addAll_eq_pickNew (l : List Record) :
    ∀ st : MState, (∀ b ∈ l, (b.id).isSome) →
      addAll st l = some { acc := st.acc ++ (pickNew st.seen l).sel,
                           seen := (pickNew st.seen l).seen,
                           logs := st.logs ++ ((pickNew st.seen l).skipped).map skipLine } := by
  induction l with
  | nil => intro st _; simp [addAll, pickNew]
  | cons b rest ih =>
      intro st hids
      obtain ⟨i, hbi⟩ := Option.isSome_iff_exists.mp (hids b (by simp))
      have hrest : ∀ r ∈ rest, (r.id).isSome := fun r hr => hids r (by simp [hr])
      have hTheId : theId b = i := by simp [theId, hbi]
      by_cases h : i ∈ st.seen
      · have hstep : addOne st b =
            some { acc := st.acc, seen := st.seen, logs := st.logs ++ [skipLine i] } := by
          simp [addOne, hbi, h]
        simp only [addAll, hstep, Option.bind_eq_bind, Option.some_bind]
        rw [ih _ hrest]
        simp [pickNew, hTheId, h]
      · have hstep : addOne st b =
            some { acc := st.acc ++ [b], seen := st.seen ++ [i], logs := st.logs } := by
          simp [addOne, hbi, h]
        simp only [addAll, hstep, Option.bind_eq_bind, Option.some_bind]
        rw [ih _ hrest]
        simp [pickNew, hTheId, h]

theorem addAll_isSome_ids (l : List Record) :
    ∀ (st st1 : MState), addAll st l = some st1 → ∀ b ∈ l, (b.id).isSome := by
  induction l with
  | nil => intro st st1 _ b hb; simp at hb
  | cons b rest ih =>
      intro st st1 hAll r hr
      simp only [addAll, Option.bind_eq_bind] at hAll
      cases hstep : addOne st b with
      | none => rw [hstep] at hAll; simp at hAll
      | some st2 =>
          rw [hstep] at hAll
          simp only [Option.some_bind] at hAll
          rcases List.mem_cons.mp hr with hr1 | hr1
          · subst hr1
            cases hbid : r.id with
            | none => simp [addOne, hbid] at hstep
            | some i => simp [hbid]
          · exact ih st2 st1 hAll r hr1

theorem idsOf_eq (l : List Record) (h : ∀ b ∈ l, (b.id).isSome) :
    idsOf l = some (l.map theId) := by
  induction l with
  | nil => simp [idsOf]
  | cons b rest ih =>
      obtain ⟨i, hbi⟩ := Option.isSome_iff_exists.mp (h b (by simp))
      have hrest : ∀ r ∈ rest, (r.id).isSome := fun r hr => h r (by simp [hr])
      simp [idsOf, hbi, ih hrest, theId]

theorem idsOf_isSome_ids (l : List Record) :
    ∀ s : List String, idsOf l = some s → ∀ b ∈ l, (b.id).isSome := by
  induction l with
  | nil => intro s _ b hb; simp at hb
  | cons b rest ih =>
      intro s hs r hr
      simp only [idsOf, Option.bind_eq_bind] at hs
      cases hbid : b.id with
      | none => rw [hbid] at hs; simp at hs
      | some i =>
          rw [hbid] at hs
          simp only [Option.some_bind] at hs
          cases hrest : idsOf rest with
          | none => rw [hrest] at hs; simp at hs
          | some others =>
              rcases List.mem_cons.mp hr with hr1 | hr1
              · subst hr1; simp [hbid]
              · exact ih others hrest r hr1

theorem merge_eq_spec (c a b : List Record)
    (hc : ∀ r ∈ c, (r.id).isSome) (ha : ∀ r ∈ a, (r.id).isSome)
    (hb : ∀ r ∈ b, (r.id).isSome) :
    merge_benchmarks c a b =
      some { merged := c ++ (pickNew (c.map theId) a).sel
                         ++ (pickNew ((pickNew (c.map theId) a).seen) b).sel,
             logs := (((pickNew (c.map theId) a).skipped)
                       ++ ((pickNew ((pickNew (c.map theId) a).seen) b).skipped)).map skipLine } := by
  have h1 := idsOf_eq c hc
  have h2 := addAll_eq_pickNew a { acc := c, seen := c.map theId, logs := [] } ha
  have h3 := addAll_eq_pickNew b
      { acc := c ++ (pickNew (c.map theId) a).sel,
        seen := (pickNew (c.map theId) a).seen,
        logs := [] ++ ((pickNew (c.map theId) a).skipped).map skipLine } hb
  simp only [merge_benchmarks, Option.bind_eq_bind, h1, Option.some_bind, h2, h3]
  simp [List.append_assoc]

theorem merge_some_ids (c a b : List Record) (out : MergeOutput)
    (h : merge_benchmarks c a b = some out) :
    (∀ r ∈ c, (r.id).isSome) ∧ (∀ r ∈ a, (r.id).isSome) ∧ (∀ r ∈ b, (r.id).isSome) := by
  unfold merge_benchmarks at h
  cases hids : idsOf c with
  | none => rw [hids] at h; simp at h
  | some s =>
      rw [hids] at h
      simp only [Option.bind_eq_bind, Option.some_bind] at h
      cases h1 : addAll { acc := c, seen := s, logs := [] } a with
      | none => rw [h1] at h; simp at h
      | some st1 =>
          rw [h1] at h
          simp only [Option.some_bind] at h
          cases h2 : addAll st1 b with
          | none => rw [h2] at h; simp at h
          | some st2 =>
              exact ⟨idsOf_isSome_ids c s hids,
                     addAll_isSome_ids a _ _ h1,
                     addAll_isSome_ids b _ _ h2⟩

theorem merge_char (c a b : List Record) (out : MergeOutput)
    (h : merge_benchmarks c a b = some out) :
    out.merged = c ++ (pickNew (c.map theId) a).sel
                   ++ (pickNew ((pickNew (c.map theId) a).seen) b).sel ∧
    out.logs = (((pickNew (c.map theId) a).skipped)
                 ++ ((pickNew ((pickNew (c.map theId) a).seen) b).skipped)).map skipLine := by
  obtain ⟨hc, ha, hb⟩ := merge_some_ids c a b out h
  rw [merge_eq_spec c a b hc ha hb] at h
  injection h with h4
  subst h4
  exact ⟨rfl, rfl⟩

theorem merge_isSome_iff (c a b : List Record) :
    (merge_benchmarks c a b).isSome ↔ ∀ r ∈ c ++ a ++ b, (r.id).isSome := by
  constructor
  · intro h
    obtain ⟨out, hout⟩ := Option.isSome_iff_exists.mp h
    obtain ⟨hc, ha, hb⟩ := merge_some_ids c a b out hout
    intro r hr
    rcases List.mem_append.mp hr with hr1 | hr1
    · rcases List.mem_append.mp hr1 with hr2 | hr2
      · exact hc r hr2
      · exact ha r hr2
    · exact hb r hr1
  · intro h
    have hc : ∀ r ∈ c, (r.id).isSome := fun r hr => h r (by simp [hr])
    have ha : ∀ r ∈ a, (r.id).isSome := fun r hr => h r (by simp [hr])
    have hb : ∀ r ∈ b, (r.id).isSome := fun r hr => h r (by simp [hr])
    rw [merge_eq_spec c a b hc ha hb]
    rfl

/-! Facts about the category tally. -/

theorem bumpCat_lookup (m : List (String × Nat)) (c k : String) :
    lookupCount (bumpCat m c) k = lookupCount m k + (if c = k then 1 else 0) := by
  induction m with
  | nil =>
      by_cases h : c = k <;> simp [bumpCat, lookupCount, h]
  | cons p rest ih =>
      obtain ⟨k1, v⟩ := p
      by_cases h1 : k1 = c
      · subst h1
        by_cases h2 : k1 = k
        · subst h2; simp [bumpCat, lookupCount]
        · simp [bumpCat, lookupCount, h2]
      · by_cases h2 : k1 = k
        · subst h2
          have : ¬c = k1 := fun hEq => h1 hEq.symm
          simp [bumpCat, lookupCount, h1, this]
        · simp [bumpCat, lookupCount, h1, h2, ih]

theorem bumpCat_sum (m : List (String × Nat)) (c : String) :
    sumCounts (bumpCat m c) = sumCounts m + 1 := by
  induction m with
  | nil => simp [bumpCat, sumCounts]
  | cons p rest ih =>
      obtain ⟨k1, v⟩ := p
      by_cases h1 : k1 = c
      · simp [bumpCat, sumCounts, h1]; omega
      · simp [bumpCat, sumCounts, h1, ih]; omega

theorem bumpCat_keys (m : List (String × Nat)) (c k : String) :
    k ∈ (bumpCat m c).map Prod.fst ↔ k ∈ m.map Prod.fst ∨ k = c := by
  induction m with
  | nil => simp [bumpCat]
  | cons p rest ih =>
      obtain ⟨k1, v⟩ := p
      by_cases h1 : k1 = c
      · subst h1
        constructor
        · intro h; exact Or.inl (by simpa [bumpCat] using h)
        · intro h
          rcases h with h | h
          · simpa [bumpCat] using h
          · simp [bumpCat, h]
      · simp [bumpCat, h1, ih]
        tauto

theorem tally_lookup (l : List Record) :
    ∀ (m : List (String × Nat)) (k : String),
      lookupCount (l.foldl (fun m b => bumpCat m (catOf b)) m) k =
        lookupCount m k + l.countP (fun r => catOf r = k) := by
  induction l with
  | nil => intro m k; simp
  | cons b rest ih =>
      intro m k
      simp only [List.foldl_cons, List.countP_cons, ih (bumpCat m (catOf b)) k,
        bumpCat_lookup, decide_eq_true_eq]
      by_cases h : catOf b = k
      · simp [h]
        omega
      · simp [h]

theorem tally_sum (l : List Record) :
    ∀ m : List (String × Nat),
      sumCounts (l.foldl (fun m b => bumpCat m (catOf b)) m) = sumCounts m + l.length := by
  induction l with
  | nil => intro m; simp
  | cons b rest ih =>
      intro m
      simp only [List.foldl_cons, List.length_cons, ih (bumpCat m (catOf b)), bumpCat_sum]
      omega

theorem tally_keys (l : List Record) :
    ∀ (m : List (String × Nat)) (k : String),
      k ∈ (l.foldl (fun m b => bumpCat m (catOf b)) m).map Prod.fst ↔
        k ∈ m.map Prod.fst ∨ k ∈ l.map catOf := by
  induction l with
  | nil => intro m k; simp
  | cons b rest ih =>
      intro m k
      simp only [List.foldl_cons, List.map_cons, List.mem_cons,
        ih (bumpCat m (catOf b)) k, bumpCat_keys]
      tauto

/-! Facts about filtering a list whose mapped ids are without
duplicates. -/

theorem nodup_filter_id_length (l : List Record) (i : String)
    (hnd : (l.map theId).Nodup) :
    (l.filter (fun r => theId r = i)).length ≤ 1 := by
  induction l with
  | nil => simp
  | cons b rest ih =>
      simp only [List.map_cons, List.nodup_cons] at hnd
      obtain ⟨hb, hrest⟩ := hnd
      by_cases h : theId b = i
      · have : rest.filter (fun r => theId r = i) = [] := by
          rw [List.filter_eq_nil_iff]
          intro r hr
          simp only [decide_eq_true_eq]
          intro hEq
          exact hb (h ▸ hEq ▸ List.mem_map_of_mem theId hr)
        simp [List.filter_cons, h, this]
      · simpa [List.filter_cons, h] using ih hrest

theorem filter_id_length_pos (l : List Record) (i : String) (hi : i ∈ l.map theId) :
    1 ≤ (l.filter (fun r => theId r = i)).length := by
  obtain ⟨r, hr, hEq⟩ := List.mem_map.mp hi
  have : r ∈ l.filter (fun r => theId r = i) := by
    rw [List.mem_filter]
    exact ⟨hr, by simp [hEq]⟩
  calc 1 ≤ _ := List.length_pos.mpr (fun hNil => by simp [hNil] at this)

theorem filter_id_nil (l : List Record) (i : String) (hi : i ∉ l.map theId) :
    l.filter (fun r => theId r = i) = [] := by
  rw [List.filter_eq_nil_iff]
  intro r hr
  simp only [decide_eq_true_eq]
  intro hEq
  exact hi (hEq ▸ List.mem_map_of_mem theId hr)

/-! The claims. -/

/-- C1 fails exactly as stated: when current itself contains a repeated
record, that record of current appears twice in the merged output, not
exactly once. -/
theorem merge_current_duplicate_record_counterexample :
    (merge_benchmarks [rid ("1") 0, rid ("1") 0] [] []).map
        (fun out => (out.merged).count (rid ("1") 0)) = some 2
    ∧ rid ("1") 0 ∈ [rid ("1") 0, rid ("1") 0] := by
  decide

/-- C1 (amended): for every three input collections on which the merge
succeeds, the merged output is exactly all records of current in their
original order and unmodified, followed by the records of supplemental-A
whose id is not already in the seen set at their turn in original order,
followed by those of supplemental-B likewise; in particular every record
of current appears in the output exactly as many times as it appears in
current (hence exactly once whenever current has no repeated record). -/
theorem merge_output_order_and_multiplicity (c a b : List Record) (out : MergeOutput)
    (h : merge_benchmarks c a b = some out) :
    out.merged = c ++ (pickNew (c.map theId) a).sel
                   ++ (pickNew ((pickNew (c.map theId) a).seen) b).sel
    ∧ ∀ r ∈ c, (out.merged).count r = c.count r := by
  obtain ⟨hm, _⟩ := merge_char c a b out h
  refine ⟨hm, fun r hr => ?_⟩
  have hidc : theId r ∈ c.map theId := List.mem_map_of_mem theId hr
  have hA : r ∉ (pickNew (c.map theId) a).sel := fun hmem =>
    pickNew_fresh a (c.map theId) (theId r) hidc (List.mem_map_of_mem theId hmem)
  have hB : r ∉ (pickNew ((pickNew (c.map theId) a).seen) b).sel := fun hmem => by
    have hseen : theId r ∈ (pickNew (c.map theId) a).seen := by
      rw [pickNew_seen_eq]
      exact List.mem_append_left _ hidc
    exact pickNew_fresh b _ (theId r) hseen (List.mem_map_of_mem theId hmem)
  rw [hm, List.count_append, List.count_append,
    List.count_eq_zero.mpr hA, List.count_eq_zero.mpr hB]
  omega

/-- Witness for the amended C1 at a concrete input. -/
theorem merge_output_order_and_multiplicity_witness :
    merge_benchmarks [rid ("1") 0] [rid ("2") 1] [] =
      some { merged := [rid ("1") 0, rid ("2") 1], logs := [] }
    ∧ ({ merged := [rid ("1") 0, rid ("2") 1], logs := [] } : MergeOutput).merged =
        [rid ("1") 0] ++ (pickNew ([rid ("1") 0].map theId) [rid ("2") 1]).sel
          ++ (pickNew ((pickNew ([rid ("1") 0].map theId) [rid ("2") 1]).seen) []).sel
    ∧ ∀ r ∈ [rid ("1") 0],
        (({ merged := [rid ("1") 0, rid ("2") 1], logs := [] } : MergeOutput).merged).count r =
          [rid ("1") 0].count r := by
  have h : merge_benchmarks [rid ("1") 0] [rid ("2") 1] [] =
      some { merged := [rid ("1") 0, rid ("2") 1], logs := [] } := by decide
  have h2 := merge_output_order_and_multiplicity [rid ("1") 0] [rid ("2") 1] [] _ h
  exact ⟨h, h2.1, h2.2⟩

/-- C2 fails as stated: when current carries the same id twice and that
id also occurs in supplemental-A, two records with that id survive in
the merged output, not exactly one. -/
theorem merge_dedup_two_survivors_counterexample :
    ("1") ∈ [rid ("1") 0, rid ("1") 1].map theId
    ∧ ("1") ∈ [rid ("1") 2].map theId
    ∧ (merge_benchmarks [rid ("1") 0, rid ("1") 1] [rid ("1") 2] []).map
        (fun out => ((out.merged).filter (fun r => theId r = ("1"))).length) = some 2 := by
  decide

/-- C2 (amended): provided the ids of the records of current are
pairwise distinct, for any id appearing in more than one input
collection exactly one record with that id survives in the merged
output, and it is the first record carrying that id in the
highest-precedence collection containing it, with precedence current
over supplemental-A over supplemental-B. -/
theorem merge_dedup_precedence (c a b : List Record) (out : MergeOutput) (i : String)
    (h : merge_benchmarks c a b = some out)
    (hnd : (c.map theId).Nodup)
    (hmulti : (i ∈ c.map theId ∧ i ∈ a.map theId) ∨ (i ∈ c.map theId ∧ i ∈ b.map theId)
      ∨ (i ∈ a.map theId ∧ i ∈ b.map theId)) :
    (out.merged).filter (fun r => theId r = i) = firstWithId i c a b
    ∧ ((out.merged).filter (fun r => theId r = i)).length = 1 := by
  obtain ⟨hm, _⟩ := merge_char c a b out h
  rw [hm, List.filter_append, List.filter_append]
  by_cases hc : i ∈ c.map theId
  · have hA : ((pickNew (c.map theId) a).sel).filter (fun r => theId r = i) = [] :=
      pickNew_filter_of_mem a (c.map theId) i hc
    have hiB : i ∈ (pickNew (c.map theId) a).seen := by
      rw [pickNew_seen_eq]
      exact List.mem_append_left _ hc
    have hB : ((pickNew ((pickNew (c.map theId) a).seen) b).sel).filter
        (fun r => theId r = i) = [] := pickNew_filter_of_mem b _ i hiB
    have hlen : (c.filter (fun r => theId r = i)).length = 1 :=
      le_antisymm (nodup_filter_id_length c i hnd) (filter_id_length_pos c i hc)
    have htake : (c.filter (fun r => theId r = i)).take 1 = c.filter (fun r => theId r = i) :=
      List.take_of_length_le (le_of_eq hlen)
    constructor
    · simp [hA, hB, firstWithId, hc, htake]
    · simp [hA, hB, hlen]
  · by_cases ha2 : i ∈ a.map theId
    · have hC : c.filter (fun r => theId r = i) = [] := filter_id_nil c i hc
      have hA : ((pickNew (c.map theId) a).sel).filter (fun r => theId r = i) =
          (a.filter (fun r => theId r = i)).take 1 :=
        pickNew_filter_first a (c.map theId) i hc
      have halen : 1 ≤ (a.filter (fun r => theId r = i)).length :=
        filter_id_length_pos a i ha2
      have htlen : ((a.filter (fun r => theId r = i)).take 1).length = 1 := by
        rw [List.length_take]
        omega
      have hselA : i ∈ ((pickNew (c.map theId) a).sel).map theId := by
        have hne : ((pickNew (c.map theId) a).sel).filter (fun r => theId r = i) ≠ [] := by
          rw [hA]
          intro hEq
          rw [hEq] at htlen
          simp at htlen
        obtain ⟨r, hrmem⟩ := List.exists_mem_of_ne_nil _ hne
        have hrf := List.mem_filter.mp hrmem
        have hri : theId r = i := by simpa using hrf.2
        exact hri ▸ List.mem_map_of_mem theId hrf.1
      have hiB : i ∈ (pickNew (c.map theId) a).seen := by
        rw [pickNew_seen_eq]
        exact List.mem_append_right _ hselA
      have hB : ((pickNew ((pickNew (c.map theId) a).seen) b).sel).filter
          (fun r => theId r = i) = [] := pickNew_filter_of_mem b _ i hiB
      constructor
      · simp [hC, hA, hB, firstWithId, hc, ha2]
      · simp [hC, hA, hB, htlen]
    · exfalso
      rcases hmulti with ⟨h1, _⟩ | ⟨h1, _⟩ | ⟨h1, _⟩
      · exact hc h1
      · exact hc h1
      · exact ha2 h1

/-- Witness for the amended C2 at a concrete input. -/
theorem merge_dedup_precedence_witness :
    merge_benchmarks [rid ("1") 0] [rid ("1") 1] [] =
      some { merged := [rid ("1") 0], logs := [skipLine ("1")] }
    ∧ ([rid ("1") 0].map theId).Nodup
    ∧ ((("1") ∈ [rid ("1") 0].map theId ∧ ("1") ∈ [rid ("1") 1].map theId)
        ∨ (("1") ∈ [rid ("1") 0].map theId ∧ ("1") ∈ ([] : List Record).map theId)
        ∨ (("1") ∈ [rid ("1") 1].map theId ∧ ("1") ∈ ([] : List Record).map theId))
    ∧ (({ merged := [rid ("1") 0], logs := [skipLine ("1")] } : MergeOutput).merged).filter
        (fun r => theId r = ("1")) = firstWithId ("1") [rid ("1") 0] [rid ("1") 1] []
    ∧ ((({ merged := [rid ("1") 0], logs := [skipLine ("1")] } : MergeOutput).merged).filter
        (fun r => theId r = ("1"))).length = 1 := by
  have h : merge_benchmarks [rid ("1") 0] [rid ("1") 1] [] =
      some { merged := [rid ("1") 0], logs := [skipLine ("1")] } := by decide
  have hnd : ([rid ("1") 0].map theId).Nodup := by decide
  have hmulti : (("1") ∈ [rid ("1") 0].map theId ∧ ("1") ∈ [rid ("1") 1].map theId)
      ∨ (("1") ∈ [rid ("1") 0].map theId ∧ ("1") ∈ ([] : List Record).map theId)
      ∨ (("1") ∈ [rid ("1") 1].map theId ∧ ("1") ∈ ([] : List Record).map theId) := by
    decide
  have h2 := merge_dedup_precedence [rid ("1") 0] [rid ("1") 1] [] _ ("1") h hnd hmulti
  exact ⟨h, hnd, hmulti, h2.1, h2.2⟩

/-- C3: the length of the merged output equals the length of current
plus the number of records of supplemental-A appended as non-duplicates
plus the number of records of supplemental-B appended as
non-duplicates. -/
theorem merge_count_invariant (c a b : List Record) (out : MergeOutput)
    (h : merge_benchmarks c a b = some out) :
    (out.merged).length = c.length + ((pickNew (c.map theId) a).sel).length
      + ((pickNew ((pickNew (c.map theId) a).seen) b).sel).length := by
  obtain ⟨hm, _⟩ := merge_char c a b out h
  rw [hm]
  simp only [List.length_append]

/-- Witness for C3 at a concrete input. -/
theorem merge_count_invariant_witness :
    merge_benchmarks [rid ("1") 0] [rid ("1") 1, rid ("2") 2] [rid ("3") 3] =
      some { merged := [rid ("1") 0, rid ("2") 2, rid ("3") 3], logs := [skipLine ("1")] }
    ∧ (({ merged := [rid ("1") 0, rid ("2") 2, rid ("3") 3],
          logs := [skipLine ("1")] } : MergeOutput).merged).length
        = [rid ("1") 0].length
          + ((pickNew ([rid ("1") 0].map theId) [rid ("1") 1, rid ("2") 2]).sel).length
          + ((pickNew ((pickNew ([rid ("1") 0].map theId) [rid ("1") 1, rid ("2") 2]).seen)
              [rid ("3") 3]).sel).length := by
  have h : merge_benchmarks [rid ("1") 0] [rid ("1") 1, rid ("2") 2] [rid ("3") 3] =
      some { merged := [rid ("1") 0, rid ("2") 2, rid ("3") 3], logs := [skipLine ("1")] } := by
    decide
  exact ⟨h, merge_count_invariant _ _ _ _ h⟩

/-- C4 fails as stated: two records sharing an id inside the same
supplemental collection are deduplicated, the later one is dropped with
a skip diagnostic rather than retained. -/
theorem merge_within_collection_dup_counterexample :
    merge_benchmarks [] [rid ("d") 0, rid ("d") 1] [] =
      some { merged := [rid ("d") 0], logs := [skipLine ("d")] }
    ∧ rid ("d") 0 ≠ rid ("d") 1 := by
  decide

/-- C4 (amended): duplicates inside current are all retained, since
current is copied into the output wholesale; but in the supplemental
collections deduplication is relative to everything already accumulated,
including records appended earlier from the same supplemental
collection, so each supplemental pass appends at most one record per id,
and only records whose id is absent from the accumulated seen set. -/
theorem merge_dedup_relative_to_accumulated (c a b : List Record) (out : MergeOutput)
    (h : merge_benchmarks c a b = some out) :
    (out.merged).take c.length = c
    ∧ (((pickNew (c.map theId) a).sel).map theId).Nodup
    ∧ (∀ i ∈ ((pickNew (c.map theId) a).sel).map theId, i ∉ c.map theId)
    ∧ (((pickNew ((pickNew (c.map theId) a).seen) b).sel).map theId).Nodup
    ∧ (∀ i ∈ ((pickNew ((pickNew (c.map theId) a).seen) b).sel).map theId,
        i ∉ (pickNew (c.map theId) a).seen) := by
  obtain ⟨hm, _⟩ := merge_char c a b out h
  refine ⟨?_, pickNew_sel_nodup a _, fun i hi hic => pickNew_fresh a _ i hic hi,
    pickNew_sel_nodup b _, fun i hi hiseen => pickNew_fresh b _ i hiseen hi⟩
  rw [hm, List.append_assoc]
  exact List.take_left c _

/-- Witness for the amended C4 at a concrete input with an
in-collection duplicate. -/
theorem merge_dedup_relative_to_accumulated_witness :
    merge_benchmarks [rid ("c") 0] [rid ("d") 1, rid ("d") 2] [] =
      some { merged := [rid ("c") 0, rid ("d") 1], logs := [skipLine ("d")] }
    ∧ ((({ merged := [rid ("c") 0, rid ("d") 1],
           logs := [skipLine ("d")] } : MergeOutput).merged).take [rid ("c") 0].length
          = [rid ("c") 0]
        ∧ (((pickNew ([rid ("c") 0].map theId) [rid ("d") 1, rid ("d") 2]).sel).map theId).Nodup
        ∧ (∀ i ∈ ((pickNew ([rid ("c") 0].map theId) [rid ("d") 1, rid ("d") 2]).sel).map theId,
            i ∉ [rid ("c") 0].map theId)
        ∧ (((pickNew ((pickNew ([rid ("c") 0].map theId) [rid ("d") 1, rid ("d") 2]).seen)
              []).sel).map theId).Nodup
        ∧ (∀ i ∈ ((pickNew ((pickNew ([rid ("c") 0].map theId) [rid ("d") 1, rid ("d") 2]).seen)
              []).sel).map theId,
            i ∉ (pickNew ([rid ("c") 0].map theId) [rid ("d") 1, rid ("d") 2]).seen)) := by
  have h : merge_benchmarks [rid ("c") 0] [rid ("d") 1, rid ("d") 2] [] =
      some { merged := [rid ("c") 0, rid ("d") 1], logs := [skipLine ("d")] } := by decide
  exact ⟨h, merge_dedup_relative_to_accumulated _ _ _ _ h⟩

/-- C5: the merge raises an uncaught fault (modelled as the none
outcome) precisely when some record of the three loaded collections
lacks the id field; conversely, when every record of all three
collections has an id field, the merge step completes without fault. -/
theorem merge_missing_id_fault_iff (c a b : List Record) :
    merge_benchmarks c a b = none ↔ ∃ r ∈ c ++ a ++ b, r.id = none := by
  rw [← Option.not_isSome_iff_eq_none, merge_isSome_iff]
  constructor
  · intro h
    push_neg at h
    obtain ⟨r, hr, hns⟩ := h
    exact ⟨r, hr, Option.not_isSome_iff_eq_none.mp hns⟩
  · rintro ⟨r, hr, hnone⟩ hall
    have := hall r hr
    rw [hnone] at this
    simp at this

/-- C6: the loader either returns the successfully parsed document with
no diagnostic, or, on any failure, returns the empty list together with
one diagnostic line naming both the file and the error; being a total
function of the abstract filesystem it never propagates the failure to
its caller. -/
theorem load_json_file_behavior (fs : String → Except String (List Record))
    (filename : String) :
    (∃ doc, fs filename = Except.ok doc ∧ load_json_file fs filename = (doc, []))
    ∨ (∃ e, fs filename = Except.error e ∧
        load_json_file fs filename = ([], ["Error loading " ++ filename ++ ": " ++ e])) := by
  cases h : fs filename with
  | ok doc => exact Or.inl ⟨doc, rfl, by simp [load_json_file, h]⟩
  | error e => exact Or.inr ⟨e, rfl, by simp [load_json_file, h]⟩

/-- C7: the category tally maps each category name to the number of
records whose category field (defaulting to the literal string unknown
when absent) equals it, a name is a key of the tally precisely when some
record bears it, and the per-category counts sum to the length of the
tallied list. -/
theorem category_tally_correct (l : List Record) (k : String) :
    lookupCount (categoriesOf l) k = l.countP (fun r => catOf r = k)
    ∧ (k ∈ (categoriesOf l).map Prod.fst ↔ k ∈ l.map catOf)
    ∧ sumCounts (categoriesOf l) = l.length := by
  refine ⟨?_, ?_, ?_⟩
  · simpa [categoriesOf, lookupCount] using tally_lookup l [] k
  · simpa [categoriesOf] using tally_keys l [] k
  · simpa [categoriesOf, sumCounts] using tally_sum l []

/-- C8: the skip diagnostics of a successful merge are exactly one
line, in order, for each record occurrence dropped as a duplicate, each
line naming the skipped id via the fixed diagnostic format; together
with the appended records they account for every supplemental record. -/
theorem merge_skip_diagnostics (c a b : List Record) (out : MergeOutput)
    (h : merge_benchmarks c a b = some out) :
    out.logs = (((pickNew (c.map theId) a).skipped)
                 ++ ((pickNew ((pickNew (c.map theId) a).seen) b).skipped)).map skipLine
    ∧ ((pickNew (c.map theId) a).sel).length + ((pickNew (c.map theId) a).skipped).length
        = a.length
    ∧ ((pickNew ((pickNew (c.map theId) a).seen) b).sel).length
        + ((pickNew ((pickNew (c.map theId) a).seen) b).skipped).length = b.length :=
  ⟨(merge_char c a b out h).2, pickNew_length a _, pickNew_length b _⟩

/-- Witness for C8 at a concrete input producing two skip lines. -/
theorem merge_skip_diagnostics_witness :
    merge_benchmarks [rid ("1") 0] [rid ("1") 1] [rid ("1") 2] =
      some { merged := [rid ("1") 0], logs := [skipLine ("1"), skipLine ("1")] }
    ∧ (({ merged := [rid ("1") 0],
          logs := [skipLine ("1"), skipLine ("1")] } : MergeOutput).logs =
          (((pickNew ([rid ("1") 0].map theId) [rid ("1") 1]).skipped)
            ++ ((pickNew ((pickNew ([rid ("1") 0].map theId) [rid ("1") 1]).seen)
                  [rid ("1") 2]).skipped)).map skipLine
        ∧ ((pickNew ([rid ("1") 0].map theId) [rid ("1") 1]).sel).length
            + ((pickNew ([rid ("1") 0].map theId) [rid ("1") 1]).skipped).length
            = [rid ("1") 1].length
        ∧ ((pickNew ((pickNew ([rid ("1") 0].map theId) [rid ("1") 1]).seen)
              [rid ("1") 2]).sel).length
            + ((pickNew ((pickNew ([rid ("1") 0].map theId) [rid ("1") 1]).seen)
                [rid ("1") 2]).skipped).length = [rid ("1") 2].length) := by
  have h : merge_benchmarks [rid ("1") 0] [rid ("1") 1] [rid ("1") 2] =
      some { merged := [rid ("1") 0], logs := [skipLine ("1"), skipLine ("1")] } := by decide
  exact ⟨h, merge_skip_diagnostics _ _ _ _ h⟩

/-- C9: when the ids of the records of current are pairwise distinct,
the ids of the records of the merged output are pairwise distinct; and
the seen set left by each supplemental pass equals exactly the ids of
the result accumulated so far, so every appended record carried a fresh
id. -/
theorem merge_output_ids_nodup (c a b : List Record) (out : MergeOutput)
    (h : merge_benchmarks c a b = some out) (hnd : (c.map theId).Nodup) :
    ((out.merged).map theId).Nodup
    ∧ (pickNew (c.map theId) a).seen = (c ++ (pickNew (c.map theId) a).sel).map theId
    ∧ (pickNew ((pickNew (c.map theId) a).seen) b).seen
        = (c ++ (pickNew (c.map theId) a).sel
            ++ (pickNew ((pickNew (c.map theId) a).seen) b).sel).map theId := by
  obtain ⟨hm, _⟩ := merge_char c a b out h
  have hseenA := pickNew_seen_eq a (c.map theId)
  have hseenB := pickNew_seen_eq b ((pickNew (c.map theId) a).seen)
  refine ⟨?_, ?_, ?_⟩
  · rw [hm]
    have hA := pickNew_sel_nodup a (c.map theId)
    have hB := pickNew_sel_nodup b ((pickNew (c.map theId) a).seen)
    rw [List.map_append, List.map_append, List.nodup_append, List.nodup_append]
    refine ⟨⟨hnd, hA, ?_⟩, hB, ?_⟩
    · intro i hic hiA
      exact pickNew_fresh a _ i hic hiA
    · intro i hi2 hiB
      have hseen : i ∈ (pickNew (c.map theId) a).seen := by
        rw [hseenA]
        rcases List.mem_append.mp hi2 with hic | hiA
        · exact List.mem_append_left _ hic
        · exact List.mem_append_right _ hiA
      exact pickNew_fresh b _ i hseen hiB
  · rw [hseenA, List.map_append]
  · rw [hseenB, hseenA]
    simp [List.map_append, List.append_assoc]

/-- Witness for C9 at a concrete input. -/
theorem merge_output_ids_nodup_witness :
    merge_benchmarks [rid ("1") 0] [rid ("1") 1, rid ("2") 2] [] =
      some { merged := [rid ("1") 0, rid ("2") 2], logs := [skipLine ("1")] }
    ∧ ([rid ("1") 0].map theId).Nodup
    ∧ (((({ merged := [rid ("1") 0, rid ("2") 2],
            logs := [skipLine ("1")] } : MergeOutput).merged).map theId).Nodup
        ∧ (pickNew ([rid ("1") 0].map theId) [rid ("1") 1, rid ("2") 2]).seen
            = ([rid ("1") 0] ++ (pickNew ([rid ("1") 0].map theId)
                [rid ("1") 1, rid ("2") 2]).sel).map theId
        ∧ (pickNew ((pickNew ([rid ("1") 0].map theId) [rid ("1") 1, rid ("2") 2]).seen) []).seen
            = ([rid ("1") 0] ++ (pickNew ([rid ("1") 0].map theId) [rid ("1") 1, rid ("2") 2]).sel
                ++ (pickNew ((pickNew ([rid ("1") 0].map theId)
                    [rid ("1") 1, rid ("2") 2]).seen) []).sel).map theId) := by
  have h : merge_benchmarks [rid ("1") 0] [rid ("1") 1, rid ("2") 2] [] =
      some { merged := [rid ("1") 0, rid ("2") 2], logs := [skipLine ("1")] } := by decide
  have hnd : ([rid ("1") 0].map theId).Nodup := by decide
  exact ⟨h, hnd, merge_output_ids_nodup _ _ _ _ h hnd⟩

/-- C10: the merged list, the category tally and the skip diagnostics
are functions of the three loaded collections alone: two abstract
filesystems whose three fixed input paths load to equal collections
yield identical run results, whatever else differs between them. -/
theorem run_merge_deterministic (fs1 fs2 : String → Except String (List Record))
    (h1 : (load_json_file fs1 ("data/benchmarks.json")).1
        = (load_json_file fs2 ("data/benchmarks.json")).1)
    (h2 : (load_json_file fs1 ("data/new_bench.json")).1
        = (load_json_file fs2 ("data/new_bench.json")).1)
    (h3 : (load_json_file fs1 ("data/new_bench1.json")).1
        = (load_json_file fs2 ("data/new_bench1.json")).1) :
    run_merge fs1 = run_merge fs2 := by
  simp only [run_merge]
  rw [h1, h2, h3]

/-- Witness for C10: two filesystems failing with different errors load
every input to the empty collection and give identical run results. -/
theorem run_merge_deterministic_witness :
    (load_json_file (fun _ => Except.error ("missing")) ("data/benchmarks.json")).1
      = (load_json_file (fun _ => Except.error ("other")) ("data/benchmarks.json")).1
    ∧ (load_json_file (fun _ => Except.error ("missing")) ("data/new_bench.json")).1
      = (load_json_file (fun _ => Except.error ("other")) ("data/new_bench.json")).1
    ∧ (load_json_file (fun _ => Except.error ("missing")) ("data/new_bench1.json")).1
      = (load_json_file (fun _ => Except.error ("other")) ("data/new_bench1.json")).1
    ∧ run_merge (fun _ => Except.error ("missing"))
      = run_merge (fun _ => Except.error ("other")) :=
  ⟨rfl, rfl, rfl, run_merge_deterministic _ _ rfl rfl rfl⟩
